import Mathlib

/- Shallow embedding of the mirbft consensus state machine core
   (src/pkg/statemachine/outstanding.go): the outstanding-request tracker,
   the log-recovery walk, the checkpoint-result processing loop, and the
   top-level applyEvent orchestrator skeleton.  Go maps keyed by digest or
   id are embedded as association lists with map semantics (lookup, insert
   with overwrite, erase); uint64 values are embedded as Nat since no
   arithmetic in the embedded code can overflow observable behaviour here;
   Go panics (assertion helpers) and returned errors are embedded as
   explicit failure constructors. -/

/-- RequestAck (mirbftpb): a request acknowledgement naming a client, a
request number and a digest.  Digests (Go byte strings) are embedded as Nat. -/
structure RequestAck where
  clientId : Nat
  reqNo : Nat
  digest : Nat
deriving DecidableEq

/-- NetworkState_Client (mirbftpb): client id and low watermark.  The field
`committed` is Modelled from the spec: the `isCommitted` helper and the
committed-mask representation are not in the provided sources; the spec only
requires skipping "request numbers already known committed", so the committed
set is embedded as an explicit finite list of request numbers. -/
structure NetworkStateClient where
  id : Nat
  lowWatermark : Nat
  committed : List Nat
deriving DecidableEq

/-- NetworkState_Config (mirbftpb): the fields used by the embedded code. -/
structure NetworkConfig where
  nodes : List Nat
  maxEpochLength : Nat
  checkpointInterval : Nat
  numberOfBuckets : Nat
deriving DecidableEq

/-- NetworkState (mirbftpb): configuration plus the client list. -/
structure NetworkState where
  config : NetworkConfig
  clients : List NetworkStateClient
deriving DecidableEq

/-- Modelled from the spec: the bucket-assignment function `clientReqToBucket`
is not part of the provided sources; the spec requires that buckets "partition
the sequence space deterministically as a function of (client id, request
number, config)" and that a request always maps to exactly one bucket.  We use
the canonical rotation, the sum of client id and request number reduced modulo
the bucket count, under which every window of `numberOfBuckets` consecutive
request numbers of one client meets every bucket exactly once. -/
def clientReqToBucket (clientId reqNo : Nat) (config : NetworkConfig) : Nat :=
  (clientId + reqNo) % config.numberOfBuckets

/-- Modelled from the spec: `isCommitted` is not in the provided sources; it
decides whether a request number of a client is already known committed. -/
def isCommitted (reqNo : Nat) (client : NetworkStateClient) : Bool :=
  decide (reqNo ∈ client.committed)

/-- clientOutstandingReqs (outstanding.go): per bucket and per client, the
next expected request number. -/
structure clientOutstandingReqs where
  nextReqNo : Nat
  numBuckets : Nat
  client : NetworkStateClient
deriving DecidableEq

/-- Fuel-indexed unfolding of the loop in
clientOutstandingReqs.skipPreviouslyCommitted (outstanding.go lines 77-85):
advance by numBuckets while the current request number is committed. -/
def skipAux (client : NetworkStateClient) (nb : Nat) : Nat → Nat → Nat
  | 0, r => r
  | fuel + 1, r => if isCommitted r client then skipAux client nb fuel (r + nb) else r

/-- skipPreviouslyCommitted (outstanding.go): the Go loop terminates because
each continuing iteration consumes a distinct member of the finite committed
set, so fuel one larger than the committed list length always suffices. -/
def skipPreviouslyCommitted (cors : clientOutstandingReqs) : clientOutstandingReqs :=
  { cors with nextReqNo := skipAux cors.client cors.numBuckets (cors.client.committed.length + 1) cors.nextReqNo }

/-- Actions emitted by the embedded code.  Sequences (Go pointer values) are
identified by a Nat id.  `allocate` and `satisfy` are Modelled from the spec:
sequence.allocate and sequence.satisfyOutstanding are not in the provided
sources, so they are embedded as symbolic actions recording their arguments.
walTruncate is the WriteAhead truncate action of persisted.truncate, naming
the new head index; the remaining constructors record invocations of
collaborator components whose bodies are outside the provided sources. -/
inductive MirAction where
  | allocate (seqId : Nat) (batch : List RequestAck) (outstanding : List Nat)
  | satisfy (seqId : Nat) (ack : RequestAck)
  | walTruncate (headIndex : Nat)
  | movedLowWatermark (newLow : Nat)
  | commitSeq (seqNo : Nat)
  | checkpointApplied (seqNo : Nat)
  | clientsAllocated (seqNo : Nat)
  | hashHandled (tag : Nat)
  | tickHandled
  | stepHandled (source : Nat)
  | clientResultsHandled
  | persistCEntry (seqNo : Nat)
deriving DecidableEq

/-- actionSet (actionset.go, not in the provided sources): embedded as a list
of actions; concat is list append and isEmpty is emptiness. -/
abbrev actionSet := List MirAction

/-- Association-list lookup with Go map semantics. -/
def alLookup {α : Type} (k : Nat) : List (Nat × α) → Option α
  | [] => none
  | (k', v) :: rest => if k' = k then some v else alLookup k rest

/-- Association-list key removal (Go delete). -/
def alErase {α : Type} (k : Nat) : List (Nat × α) → List (Nat × α)
  | [] => []
  | p :: rest => if p.1 = k then alErase k rest else p :: alErase k rest

/-- Association-list insert with overwrite (Go map assignment). -/
def alInsert {α : Type} (k : Nat) (v : α) (l : List (Nat × α)) : List (Nat × α) :=
  (k, v) :: alErase k l

/-- bucketOutstandingReqs (outstanding.go): per-client tracking for one bucket. -/
structure bucketOutstandingReqs where
  clients : List (Nat × clientOutstandingReqs)
deriving DecidableEq

/-- allOutstandingReqs (outstanding.go).  The availableList iterator is
embedded as the list `available` of acknowledgements still to be drained;
correctRequests and outstandingRequests are keyed by digest, the latter
mapping to the id of the waiting sequence. -/
structure allOutstandingReqs where
  buckets : List (Nat × bucketOutstandingReqs)
  available : List RequestAck
  correctRequests : List (Nat × RequestAck)
  outstandingRequests : List (Nat × Nat)
deriving DecidableEq

/-- Loop body of allOutstandingReqs.advanceRequests (outstanding.go lines
87-103), threading the two digest maps through the drained queue. -/
def advanceLoop (correct : List (Nat × RequestAck)) (outstanding : List (Nat × Nat)) :
    List RequestAck → List (Nat × RequestAck) × List (Nat × Nat) × actionSet
  | [] => (correct, outstanding, [])
  | ack :: rest =>
    match alLookup ack.digest outstanding with
    | some seqId =>
      let r := advanceLoop correct (alErase ack.digest outstanding) rest
      (r.1, r.2.1, MirAction.satisfy seqId ack :: r.2.2)
    | none => advanceLoop (alInsert ack.digest ack correct) outstanding rest

/-- advanceRequests (outstanding.go): drain the available queue; a digest
already outstanding satisfies its sequence, otherwise it is cached correct. -/
def advanceRequests (ao : allOutstandingReqs) : allOutstandingReqs × actionSet :=
  let r := advanceLoop ao.correctRequests ao.outstandingRequests ao.available
  ({ ao with available := [], correctRequests := r.1, outstandingRequests := r.2.1 }, r.2.2)

/-- Mutable state threaded through the loop of applyAcks: the clients map of
the target bucket, the two digest maps, and the outstandingReqs key set built
for sequence.allocate. -/
structure acksLoopState where
  clients : List (Nat × clientOutstandingReqs)
  correct : List (Nat × RequestAck)
  outstanding : List (Nat × Nat)
  keys : List Nat
deriving DecidableEq

/-- One iteration of the loop of allOutstandingReqs.applyAcks (outstanding.go
lines 112-134): unknown client or a request number different from the next
expected one yields the returned error; otherwise a digest found correct is
consumed, a digest not yet known correct is registered outstanding against the
sequence, and the next expected number advances past committed ones. -/
def applyAcksStep (seqId : Nat) (st : acksLoopState) (req : RequestAck) :
    Except String acksLoopState :=
  match alLookup req.clientId st.clients with
  | none => .error "no such client"
  | some co =>
    if co.nextReqNo ≠ req.reqNo then
      .error "unexpected request number for client in bucket"
    else
      let st1 :=
        match alLookup req.digest st.correct with
        | some _ => { st with correct := alErase req.digest st.correct }
        | none =>
          { st with outstanding := alInsert req.digest seqId st.outstanding,
                    keys := st.keys ++ [req.digest] }
      let co' := skipPreviouslyCommitted { co with nextReqNo := co.nextReqNo + co.numBuckets }
      .ok { st1 with clients := alInsert req.clientId co' st1.clients }

/-- Loop of applyAcks over the submitted batch.  On error the state already
mutated by the preceding iterations is kept, matching the Go code where the
maps are mutated in place through pointers before the error return. -/
def applyAcksLoop (seqId : Nat) (st : acksLoopState) :
    List RequestAck → acksLoopState × Option String
  | [] => (st, none)
  | req :: rest =>
    match applyAcksStep seqId st req with
    | .error e => (st, some e)
    | .ok st' => applyAcksLoop seqId st' rest

/-- Outcome of applyAcks: `fatal` embeds the assertTruef panic on a missing
bucket, `err` the error return (carrying the mutated tracker state the Go
caller keeps through its pointer), `ok` the allocation result. -/
inductive acksResult where
  | fatal (msg : String)
  | err (st : allOutstandingReqs) (msg : String)
  | ok (st : allOutstandingReqs) (acts : actionSet)
deriving DecidableEq

/-- Write the loop state back into the tracker, as the Go pointer mutations do. -/
def acksWriteBack (ao : allOutstandingReqs) (bucket : Nat) (st : acksLoopState) :
    allOutstandingReqs :=
  { ao with buckets := alInsert bucket { clients := st.clients } ao.buckets,
            correctRequests := st.correct,
            outstandingRequests := st.outstanding }

/-- allOutstandingReqs.applyAcks (outstanding.go lines 106-137). -/
def applyAcks (ao : allOutstandingReqs) (bucket : Nat) (seqId : Nat)
    (batch : List RequestAck) : acksResult :=
  match alLookup bucket ao.buckets with
  | none => .fatal "told to apply acks for bucket which does not exist"
  | some bo =>
    let st0 : acksLoopState :=
      { clients := bo.clients, correct := ao.correctRequests,
        outstanding := ao.outstandingRequests, keys := [] }
    match applyAcksLoop seqId st0 batch with
    | (st, some e) => .err (acksWriteBack ao bucket st) e
    | (st, none) =>
      .ok (acksWriteBack ao bucket st) [MirAction.allocate seqId batch st.keys]

/-- Per-client construction inside newOutstandingReqs (outstanding.go lines
33-48): search the first numberOfBuckets request numbers from the client low
watermark for the first one mapping to bucket i (the Go loop leaves
firstUncommitted zero when none matches), then skip committed numbers. -/
def newCors (config : NetworkConfig) (i : Nat) (client : NetworkStateClient) :
    clientOutstandingReqs :=
  let nb := config.numberOfBuckets
  let firstUncommitted :=
    match (List.range nb).find?
        (fun j => clientReqToBucket client.id (client.lowWatermark + j) config == i) with
    | some j => client.lowWatermark + j
    | none => 0
  skipPreviouslyCommitted { nextReqNo := firstUncommitted, numBuckets := nb, client := client }

/-- newOutstandingReqs (outstanding.go lines 15-58): build the per-bucket,
per-client tracking state and drain the available queue once.  The Go code
discards the action set of the initial advanceRequests call. -/
def newOutstandingReqs (available : List RequestAck) (ns : NetworkState) :
    allOutstandingReqs :=
  let nb := ns.config.numberOfBuckets
  let buckets := (List.range nb).map (fun i =>
    (i, ({ clients := ns.clients.foldl
            (fun m c => alInsert c.id (newCors ns.config i c) m) [] } : bucketOutstandingReqs)))
  (advanceRequests
    { buckets := buckets, available := available,
      correctRequests := [], outstandingRequests := [] }).1

/-- Persistent (mirbftpb): the closed set of write-ahead-log record variants.
Only the payload fields read by the embedded code are kept (the sequence
number of CEntry and NEntry records); the remaining payloads are irrelevant
to the log-recovery walk and truncation. -/
inductive persistent where
  | pEntry (seqNo : Nat) (digest : Nat)
  | qEntry (seqNo : Nat) (digest : Nat)
  | cEntry (seqNo : Nat)
  | nEntry (seqNo : Nat)
  | fEntry
  | ecEntry
  | tEntry
  | suspectEntry
deriving DecidableEq

/-- Decides whether a log record is a CEntry. -/
def isCEntryB : persistent → Bool
  | .cEntry _ => true
  | _ => false

/-- Decides whether a log record is an FEntry. -/
def isFEntryB : persistent → Bool
  | .fEntry => true
  | _ => false

/-- Retention rule of the scan in persisted.truncate (persisted.go section of
src/mircat/main.go): the loop continues past a CEntry whose sequence is below
the low watermark and past an NEntry whose sequence is at or below it, and
past every other record kind; the first record not skipped is the one the log
head moves to. -/
def retainedAt (lw : Nat) : persistent → Bool
  | .cEntry s => lw ≤ s
  | .nEntry s => lw < s
  | _ => false

/-- persisted.truncate (persisted.go section of src/mircat/main.go, lines
570-604): scan from the head for the first retained record.  When no record
is retained the loop runs off the end and the log is kept with no action;
when the retained record is already the head the loop breaks, again keeping
the log with no action; otherwise the head moves to the retained record and
one WriteAhead truncate action naming its index is returned.  Dropping
nothing is equivalent to the retained record being the head, which the
length comparison captures. -/
def persistedTruncate (lw : Nat) (log : List (Nat × persistent)) :
    List (Nat × persistent) × actionSet :=
  match log.dropWhile (fun e => !(retainedAt lw e.2)) with
  | [] => (log, [])
  | (i, d) :: rest =>
    if ((i, d) :: rest).length = log.length then (log, [])
    else ((i, d) :: rest, [MirAction.walTruncate i])

/-- Walk of StateMachine.recoverLog (outstanding.go lines 420-438): the list
being visited is the log as it stood when iteration began (the Go iterator
holds the linked-list nodes), while the second log argument is the persisted
state being truncated along the way.  The result carries the final persisted
log, the emitted actions, and the list of sequence numbers the walk passed to
persisted.truncate, in order; both fatal assertNotEqualf panics are embedded
as errors. -/
def recoverLogLoop (seqId? : Option Nat) :
    List (Nat × persistent) → List (Nat × persistent) →
    Except String (List (Nat × persistent) × actionSet × List Nat)
  | [], curLog =>
    match seqId? with
    | none => .error "found no checkpoints in the log"
    | some _ => .ok (curLog, [], [])
  | entry :: rest, curLog =>
    match entry.2 with
    | .cEntry s => recoverLogLoop (some s) rest curLog
    | .fEntry =>
      match seqId? with
      | none => .error "FEntry without corresponding CEntry, log is corrupt"
      | some s =>
        let tr := persistedTruncate s curLog
        (recoverLogLoop (some s) rest tr.1).map
          (fun r => (r.1, tr.2 ++ r.2.1, s :: r.2.2))
    | _ => recoverLogLoop seqId? rest curLog

/-- StateMachine.recoverLog (outstanding.go): iterate the loaded log tracking
the most recent CEntry, truncating the persisted log at each FEntry. -/
def recoverLog (log : List (Nat × persistent)) :
    Except String (List (Nat × persistent) × actionSet × List Nat) :=
  recoverLogLoop none log log

/-- Spec-side characterization used by the recovery claim: the truncation
targets a well-formed walk performs, one per FEntry, each the sequence number
of the most recent preceding CEntry. -/
def fEntryTargets (lastC : Option Nat) : List persistent → List Nat
  | [] => []
  | .cEntry s :: rest => fEntryTargets (some s) rest
  | .fEntry :: rest =>
    match lastC with
    | some s => s :: fEntryTargets (some s) rest
    | none => fEntryTargets none rest
  | _ :: rest => fEntryTargets lastC rest

/-- Well-formedness of a loaded log for recovery: tracks whether a CEntry has
been seen; every FEntry must be preceded by one and at least one CEntry must
exist overall. -/
def wfLog : List (Nat × persistent) → Bool → Bool
  | [], seenC => seenC
  | entry :: rest, seenC =>
    match entry.2 with
    | .cEntry _ => wfLog rest true
    | .fEntry => seenC && wfLog rest seenC
    | _ => wfLog rest seenC

/-- CheckpointResult (mirbftpb): the fields read by the embedded code. -/
structure checkpointResult where
  seqNo : Nat
  value : Nat
deriving DecidableEq

/-- commitState (commit.go, outside the provided sources): the fields the
embedded orchestrator reads and writes.  The window bounds and the transfer
flag follow spec section 4.2; pendingCommits models the sequence numbers
drain would deliver. -/
structure commitState where
  lowWatermark : Nat
  stopAtSeqNo : Nat
  activeState : NetworkState
  transferring : Bool
  pendingCommits : List Nat
deriving DecidableEq

/-- Modelled from the spec: commitState.applyCheckpointResult is not in the
provided sources.  Per spec section 4.2 it advances stopAtSeqNo once the
caller has validated that the result sequence is exactly one checkpoint
interval past the prior low watermark; the advance is modelled as moving
stopAtSeqNo one interval past the result sequence, recording the application
as an action. -/
def applyCheckpointResultM (cs : commitState) (r : checkpointResult) :
    commitState × actionSet :=
  ({ cs with stopAtSeqNo := r.seqNo + cs.activeState.config.checkpointInterval },
   [MirAction.checkpointApplied r.seqNo])

/-- Body of the checkpoint loop of StateMachine.processResults
(outstanding.go lines 484-508) for one checkpoint result: a result below the
current low watermark is skipped untouched; otherwise assertEqual demands the
sequence be exactly one checkpoint interval past the low watermark (embedded
as an error), and on success applyCheckpointResult runs, with the client
allocation path taken when stopAtSeqNo advanced. -/
def processCheckpointResult (cs : commitState) (r : checkpointResult) :
    Except String (commitState × actionSet) :=
  if r.seqNo < cs.lowWatermark then .ok (cs, [])
  else
    if cs.lowWatermark + cs.activeState.config.checkpointInterval = r.seqNo then
      let a := applyCheckpointResultM cs r
      if cs.stopAtSeqNo < a.1.stopAtSeqNo then
        .ok (a.1, a.2 ++ [MirAction.clientsAllocated r.seqNo])
      else .ok (a.1, a.2)
    else .error "new checkpoint results must be exactly one checkpoint interval after the last"

/-- Checkpoint loop of processResults over all delivered results. -/
def processCheckpointLoop (cs : commitState) :
    List checkpointResult → Except String (commitState × actionSet)
  | [] => .ok (cs, [])
  | r :: rest =>
    match processCheckpointResult cs r with
    | .error e => .error e
    | .ok (cs', acts) =>
      (processCheckpointLoop cs' rest).map (fun p => (p.1, acts ++ p.2))

/-- stateMachineState (outstanding.go): lifecycle phase of the orchestrator. -/
inductive smPhase where
  | smUninitialized
  | smLoadingPersisted
  | smInitialized
deriving DecidableEq

/-- StateEvent (mirbftpb): the closed event union dispatched by applyEvent,
with payloads reduced to the fields the embedded skeleton reads. -/
inductive stateEvent where
  | initEvt (id : Nat)
  | loadEntry (index : Nat) (data : persistent)
  | completeInit
  | tick
  | step (source : Nat) (msgTag : Nat)
  | addResults (checkpoints : List checkpointResult) (digests : List Nat)
  | addClientResults (tag : Nat)
  | transfer (seqNo : Nat)
  | actionsReceived
  | clientActionsReceived
deriving DecidableEq

/-- StateMachine (outstanding.go lines 233-248).  Collaborator components
whose code is outside the provided sources are modelled by the observable
state the orchestrator skeleton reads: the checkpoint tracker by its
garbage-collectable flag, the watermark garbageCollect would return and its
configured checkpoint interval; the batch tracker by its truncation bound;
the epoch tracker by the queue of work advanceState still has to report,
each item an action batch plus commits it pushes into the commit state. -/
structure StateMachine where
  phase : smPhase
  myId : Nat
  persistedLog : List (Nat × persistent)
  commit : commitState
  cpGarbageCollectable : Bool
  cpPendingLow : Nat
  cpInterval : Nat
  batchLowBound : Nat
  epochPending : List (actionSet × List Nat)
deriving DecidableEq

/-- Zero value of the Go StateMachine struct, as allocated by callers before
the Initialize event (mircat builds the struct with only the logger set). -/
def newStateMachine : StateMachine :=
  { phase := .smUninitialized, myId := 0, persistedLog := [],
    commit := { lowWatermark := 0, stopAtSeqNo := 0,
                activeState := { config := { nodes := [], maxEpochLength := 0,
                                             checkpointInterval := 0, numberOfBuckets := 0 },
                                 clients := [] },
                transferring := false, pendingCommits := [] },
    cpGarbageCollectable := false, cpPendingLow := 0, cpInterval := 0,
    batchLowBound := 0, epochPending := [] }

/-- StateMachine.initialize (outstanding.go lines 250-286): reset the
components against the dummy initial network state (one node, every interval
parameter 1) and enter the loading phase. -/
def initSM (sm : StateMachine) (id : Nat) : Except String StateMachine :=
  match sm.phase with
  | .smUninitialized =>
    .ok { phase := .smLoadingPersisted, myId := id, persistedLog := [],
          commit := { lowWatermark := 0, stopAtSeqNo := 0,
                      activeState := { config := { nodes := [id], maxEpochLength := 1,
                                                   checkpointInterval := 1, numberOfBuckets := 1 },
                                       clients := [] },
                      transferring := false, pendingCommits := [] },
          cpGarbageCollectable := false, cpPendingLow := 0, cpInterval := 1,
          batchLowBound := 0, epochPending := [] }
  | _ => .error "state machine has already been initialized"

/-- StateMachine.applyPersisted (outstanding.go lines 288-291) together with
persisted.appendInitialLoad (persisted.go section of src/mircat/main.go lines
466-485): the first loaded entry fixes the starting index, every later index
must continue contiguously, and a gap is a fatal panic. -/
def applyPersisted (sm : StateMachine) (index : Nat) (data : persistent) :
    Except String StateMachine :=
  match sm.phase with
  | .smLoadingPersisted =>
    match sm.persistedLog.getLast? with
    | some last =>
      if index = last.1 + 1 then
        .ok { sm with persistedLog := sm.persistedLog ++ [(index, data)] }
      else .error "WAL indices must be contiguous, log is corrupt"
    | none => .ok { sm with persistedLog := [(index, data)] }
  | _ => .error "state machine has already finished loading persisted data"

/-- Sequence number of the most recent CEntry of a log, zero when none exists. -/
def lastCSeq (log : List (Nat × persistent)) : Nat :=
  ((log.filterMap (fun e => match e.2 with | .cEntry s => some s | _ => none)).getLast?).getD 0

/-- StateMachine.reinitialize (outstanding.go lines 407-418): recover the log,
then reinitialize the components.  The component reinitializations outside the
provided sources are Modelled from the spec: the commit window is re-derived
from the last checkpoint found by log recovery. -/
def reinitializeSM (sm : StateMachine) : Except String (StateMachine × actionSet) :=
  match recoverLog sm.persistedLog with
  | .error e => .error e
  | .ok r =>
    let lc := lastCSeq r.1
    .ok ({ sm with persistedLog := r.1,
                   commit := { sm.commit with
                               lowWatermark := lc,
                               stopAtSeqNo := lc + sm.commit.activeState.config.checkpointInterval,
                               transferring := false, pendingCommits := [] } },
         r.2.1)

/-- Garbage-collection block of StateMachine.applyEvent (outstanding.go lines
360-378): when the checkpoint tracker is garbage-collectable, collect (which
moves it out of that state), truncate the WAL discarding the returned action
set as the Go code does, truncate the batch tracker one checkpoint interval
behind when possible, and move the epoch tracker low watermark.  The third
component of the result counts executions of the block. -/
def gcPhase (sm : StateMachine) : StateMachine × actionSet × Nat :=
  if sm.cpGarbageCollectable then
    let newLow := sm.cpPendingLow
    let log' := (persistedTruncate newLow sm.persistedLog).1
    let batch' := if sm.cpInterval < newLow then newLow - sm.cpInterval else sm.batchLowBound
    ({ sm with cpGarbageCollectable := false, persistedLog := log',
               batchLowBound := batch' },
     [MirAction.movedLowWatermark newLow], 1)
  else (sm, [], 0)

/-- Fixpoint loop of StateMachine.applyEvent (outstanding.go lines 380-398):
drain the commits accumulated so far, then advance the epoch tracker; stop as
soon as advancing reports no actions.  advanceState is modelled by popping the
next pending work item, whose commits enter the commit queue. -/
def drainLoop (pendingCommits : List Nat) :
    List (actionSet × List Nat) → actionSet × List Nat × List (actionSet × List Nat)
  | [] => (pendingCommits.map MirAction.commitSeq, [], [])
  | (a, cms) :: rest =>
    let drained := pendingCommits.map MirAction.commitSeq
    if a.isEmpty then (drained, cms, rest)
    else
      let r := drainLoop cms rest
      (drained ++ a ++ r.1, r.2.1, r.2.2)

/-- Dispatch-then-iterate tail of applyEvent for the event kinds that fall
through to the garbage-collection check and the fixpoint loop. -/
def applyEventTail (sm : StateMachine) (dispatched : actionSet) :
    StateMachine × actionSet × Nat :=
  let g := gcPhase sm
  let d := drainLoop g.1.commit.pendingCommits g.1.epochPending
  ({ g.1 with commit := { g.1.commit with pendingCommits := d.2.1 },
              epochPending := d.2.2 },
   dispatched ++ g.2.1 ++ d.1, g.2.2)

/-- StateMachine.applyEvent (outstanding.go lines 305-401).  The result
carries the produced action batch and the number of times the
garbage-collection block ran while applying this event; fatal assertions are
embedded as errors. -/
def applyEvent (sm : StateMachine) (ev : stateEvent) :
    Except String (StateMachine × actionSet × Nat) :=
  match ev with
  | .initEvt id => (initSM sm id).map (fun sm' => (sm', [], 0))
  | .loadEntry index data => (applyPersisted sm index data).map (fun sm' => (sm', [], 0))
  | .completeInit =>
    match sm.phase with
    | .smLoadingPersisted =>
      (reinitializeSM { sm with phase := .smInitialized }).map
        (fun r => (r.1, r.2, 0))
    | _ => .error "state machine has already finished loading persisted data"
  | .tick =>
    match sm.phase with
    | .smInitialized => .ok (applyEventTail sm [MirAction.tickHandled])
    | _ => .error "cannot apply events to an uninitialized state machine"
  | .step source _ =>
    match sm.phase with
    | .smInitialized => .ok (applyEventTail sm [MirAction.stepHandled source])
    | _ => .error "cannot apply events to an uninitialized state machine"
  | .addResults checkpoints digests =>
    match sm.phase with
    | .smInitialized =>
      match processCheckpointLoop sm.commit checkpoints with
      | .error e => .error e
      | .ok (cs', acts) =>
        .ok (applyEventTail { sm with commit := cs' }
              (acts ++ digests.map MirAction.hashHandled))
    | _ => .error "cannot apply events to an uninitialized state machine"
  | .addClientResults _ =>
    match sm.phase with
    | .smInitialized => .ok (applyEventTail sm [MirAction.clientResultsHandled])
    | _ => .error "cannot apply events to an uninitialized state machine"
  | .transfer seqNo =>
    if sm.commit.transferring then
      let idx := (sm.persistedLog.getLast?.map (fun e => e.1 + 1)).getD 0
      match reinitializeSM
          { sm with persistedLog := sm.persistedLog ++ [(idx, .cEntry seqNo)] } with
      | .error e => .error e
      | .ok r => .ok (applyEventTail r.1 ([MirAction.persistCEntry seqNo] ++ r.2))
    else .error "state transfer event received but the state machine did not request transfer"
  | .actionsReceived => .ok (sm, [], 0)
  | .clientActionsReceived => .ok (sm, [], 0)

/-- Event-stream application: fold applyEvent over an ordered event list,
collecting the per-event action batches. -/
def applyEvents (sm : StateMachine) :
    List stateEvent → Except String (StateMachine × List actionSet)
  | [] => .ok (sm, [])
  | e :: rest =>
    match applyEvent sm e with
    | .error m => .error m
    | .ok (sm', acts, _) =>
      (applyEvents sm' rest).map (fun p => (p.1, acts :: p.2))

/-- Validity of an acknowledgement batch against the evolving per-client
tracking state: every acknowledgement must name a known client and carry
exactly the next expected request number that client has at the moment the
acknowledgement is processed, the number advancing by the bucket count and
skipping committed numbers after each acknowledgement, exactly as the
applyAcks loop advances it. -/
def acksOk (clients : List (Nat × clientOutstandingReqs)) : List RequestAck → Bool
  | [] => true
  | req :: rest =>
    match alLookup req.clientId clients with
    | none => false
    | some co =>
      co.nextReqNo == req.reqNo &&
        acksOk
          (alInsert req.clientId
            (skipPreviouslyCommitted { co with nextReqNo := co.nextReqNo + co.numBuckets })
            clients)
          rest

/-- Number of satisfy actions for a given digest in an action batch. -/
def countSatisfy (k : Nat) (acts : actionSet) : Nat :=
  (acts.filter (fun a => match a with | .satisfy _ ack => ack.digest == k | _ => false)).length

/-- Disjointness of the two digest maps: no digest key of the known-correct
map is present in the outstanding map. -/
def noSharedDigest (correct : List (Nat × RequestAck)) (outstanding : List (Nat × Nat)) : Prop :=
  ∀ p ∈ correct, alLookup p.1 outstanding = none

instance noSharedDigestDec (c : List (Nat × RequestAck)) (o : List (Nat × Nat)) :
    Decidable (noSharedDigest c o) :=
  inferInstanceAs (Decidable (∀ p ∈ c, alLookup p.1 o = none))

/-- Concrete client fixture used by witnesses. -/
def clientW : NetworkStateClient := { id := 5, lowWatermark := 3, committed := [] }

/-- Concrete per-client tracking fixture used by witnesses. -/
def corsW : clientOutstandingReqs := { nextReqNo := 3, numBuckets := 1, client := clientW }

/-- Concrete tracker fixture with one bucket and one client. -/
def aoW : allOutstandingReqs :=
  { buckets := [(0, { clients := [(5, corsW)] })], available := [],
    correctRequests := [], outstandingRequests := [] }

/-- Valid two-acknowledgement batch for the fixture client. -/
def batchOkW : List RequestAck :=
  [{ clientId := 5, reqNo := 3, digest := 77 }, { clientId := 5, reqNo := 4, digest := 78 }]

/-- Batch whose second acknowledgement carries a wrong request number. -/
def batchErrW : List RequestAck :=
  [{ clientId := 5, reqNo := 3, digest := 77 }, { clientId := 5, reqNo := 9, digest := 78 }]

/-- Tracker fixture whose available queue holds the same digest twice while
that digest is outstanding against sequence 42. -/
def aoAdvW : allOutstandingReqs :=
  { buckets := [], available := [{ clientId := 5, reqNo := 3, digest := 77 },
                                 { clientId := 5, reqNo := 3, digest := 77 }],
    correctRequests := [], outstandingRequests := [(77, 42)] }

/-- Network-state fixture for the bucket-initialization witness: two buckets,
one client with low watermark 4 whose request numbers 4 and 6 are committed. -/
def nsW : NetworkState :=
  { config := { nodes := [0], maxEpochLength := 10, checkpointInterval := 5,
                numberOfBuckets := 2 },
    clients := [{ id := 1, lowWatermark := 4, committed := [4, 6] }] }

/-- Commit-state fixture with low watermark 5 and checkpoint interval 5. -/
def csW : commitState :=
  { lowWatermark := 5, stopAtSeqNo := 10,
    activeState := { config := { nodes := [0], maxEpochLength := 1,
                                 checkpointInterval := 5, numberOfBuckets := 1 },
                     clients := [] },
    transferring := false, pendingCommits := [] }

/-- Initialized state-machine fixture whose checkpoint tracker is
garbage-collectable. -/
def smW : StateMachine :=
  { newStateMachine with phase := .smInitialized, cpGarbageCollectable := true,
                         cpPendingLow := 10, cpInterval := 5 }

/-- Well-formed log fixture: a checkpoint at sequence 0 followed by an FEntry. -/
def logOkW : List (Nat × persistent) := [(0, .cEntry 0), (1, .fEntry)]

/-- Log fixture with no checkpoint entry. -/
def logNoCW : List (Nat × persistent) := [(0, .pEntry 0 0), (1, .tEntry)]

/-- Log fixture whose FEntry precedes any checkpoint entry. -/
def logFFirstW : List (Nat × persistent) := [(0, .fEntry), (1, .cEntry 2)]

/-- Exact tracker state applyAcks leaves behind when it rejects the second
acknowledgement of batchErrW: the first acknowledgement already advanced the
client and registered digest 77 outstanding. -/
def stErrW : allOutstandingReqs :=
  { buckets := [(0, { clients := [(5, { corsW with nextReqNo := 4 })] })],
    available := [], correctRequests := [], outstandingRequests := [(77, 9)] }

/-- State machine fixture in the loading phase holding the checkpoint-free
log, used by the recovery witness. -/
def smLoadW : StateMachine :=
  { newStateMachine with phase := .smLoadingPersisted, persistedLog := logNoCW }

-- Theorems and supporting lemmas follow; all definitions precede this line.

lemma applyEventTail_gcCount (sm : StateMachine) (a : actionSet) :
    (applyEventTail sm a).2.2 = (if sm.cpGarbageCollectable then 1 else 0) := by
  unfold applyEventTail gcPhase
  by_cases hgc : sm.cpGarbageCollectable <;> simp [hgc]

/-- C8: applying ActionsReceived or ClientActionsReceived returns an empty
action batch and leaves the state machine unchanged, so re-applying either
event with no intervening new event again yields an empty action batch.  In
the Go code both cases return a fresh empty actionSet before the
garbage-collection check and the fixpoint loop are ever reached. -/
theorem actionsReceived_noop (sm : StateMachine) :
    applyEvent sm .actionsReceived = .ok (sm, [], 0) ∧
    applyEvent sm .clientActionsReceived = .ok (sm, [], 0) ∧
    applyEvents sm [.actionsReceived, .actionsReceived] = .ok (sm, [[], []]) ∧
    applyEvents sm [.clientActionsReceived, .clientActionsReceived] = .ok (sm, [[], []]) :=
  ⟨rfl, rfl, rfl, rfl⟩

/-- C1: two independently constructed state machines fed the identical
ordered event stream produce structurally identical action batches at every
step; the embedded core is a pure function of its event history. -/
theorem applyEvents_deterministic (m1 m2 : StateMachine) (es : List stateEvent)
    (h1 : m1 = newStateMachine) (h2 : m2 = newStateMachine) :
    applyEvents m1 es = applyEvents m2 es := by
  subst h1; subst h2; rfl

/-- Witness for C1 at a concrete event stream. -/
theorem applyEvents_deterministic_witness :
    newStateMachine = newStateMachine ∧
      applyEvents newStateMachine [stateEvent.initEvt 3, stateEvent.actionsReceived] =
        applyEvents newStateMachine [stateEvent.initEvt 3, stateEvent.actionsReceived] :=
  ⟨rfl, applyEvents_deterministic _ _ _ rfl rfl⟩

/-- C5: during one invocation of applyEvent the garbage-collection
combination runs at most once; the drain and advanceState fixpoint loop that
follows it never re-runs the block. -/
theorem gc_at_most_once (sm : StateMachine) (ev : stateEvent)
    (sm' : StateMachine) (acts : actionSet) (n : Nat)
    (h : applyEvent sm ev = .ok (sm', acts, n)) : n ≤ 1 := by
  have htail : ∀ (s : StateMachine) (a : actionSet) (t : StateMachine × actionSet × Nat),
      applyEventTail s a = t → t.2.2 ≤ 1 := by
    intro s a t het
    have := applyEventTail_gcCount s a
    rw [het] at this
    rw [this]
    split <;> omega
  cases ev <;> simp only [applyEvent] at h
  case initEvt id =>
    cases hi : initSM sm id <;> simp [hi, Except.map] at h
    omega
  case loadEntry index data =>
    cases hi : applyPersisted sm index data <;> simp [hi, Except.map] at h
    omega
  case completeInit =>
    cases hp : sm.phase <;> simp [hp] at h
    cases hr : reinitializeSM { sm with phase := .smInitialized } <;>
      simp [hr, Except.map] at h
    omega
  case tick =>
    cases hp : sm.phase <;> simp [hp] at h
    simpa using htail _ _ _ h
  case step source msgTag =>
    cases hp : sm.phase <;> simp [hp] at h
    simpa using htail _ _ _ h
  case addResults checkpoints digests =>
    cases hp : sm.phase <;> simp [hp] at h
    cases hc : processCheckpointLoop sm.commit checkpoints with
    | error e => simp [hc] at h
    | ok p =>
      simp [hc] at h
      simpa using htail _ _ _ h
  case addClientResults tag =>
    cases hp : sm.phase <;> simp [hp] at h
    simpa using htail _ _ _ h
  case transfer seqNo =>
    by_cases ht : sm.commit.transferring
    · simp only [ht, if_true] at h
      split at h
      · exact absurd h (by simp)
      · simp only [Except.ok.injEq] at h
        simpa using htail _ _ _ h
    · simp [ht] at h
  case actionsReceived =>
    simp at h
    omega
  case clientActionsReceived =>
    simp at h
    omega

/-- Witness for C5 at a concrete garbage-collectable state machine. -/
theorem gc_at_most_once_witness :
    applyEvent smW .tick =
      .ok ({ smW with cpGarbageCollectable := false, batchLowBound := 5 },
           [MirAction.tickHandled, MirAction.movedLowWatermark 10], 1) ∧ 1 ≤ 1 :=
  ⟨rfl, gc_at_most_once smW .tick _ _ 1 rfl⟩

/-- C3: one checkpoint result delivered through AddResults is silently
skipped with no state change and no error when its sequence is strictly below
the commit low watermark; otherwise processing fatally asserts unless the
sequence equals the low watermark plus exactly one checkpoint interval, in
which case applyCheckpointResult is invoked (the resulting commit state is
exactly its output, with stopAtSeqNo moved one interval past the result). -/
theorem checkpointResult_cases (cs : commitState) (r : checkpointResult) :
    (r.seqNo < cs.lowWatermark → processCheckpointResult cs r = .ok (cs, [])) ∧
    (cs.lowWatermark ≤ r.seqNo →
      cs.lowWatermark + cs.activeState.config.checkpointInterval ≠ r.seqNo →
      ∃ m, processCheckpointResult cs r = .error m) ∧
    (cs.lowWatermark + cs.activeState.config.checkpointInterval = r.seqNo →
      ∃ acts, processCheckpointResult cs r = .ok ((applyCheckpointResultM cs r).1, acts) ∧
        (applyCheckpointResultM cs r).1.stopAtSeqNo =
          r.seqNo + cs.activeState.config.checkpointInterval) := by
  refine ⟨fun hlt => ?_, fun hge hne => ?_, fun heq => ?_⟩
  · simp [processCheckpointResult, hlt]
  · have hlt : ¬ r.seqNo < cs.lowWatermark := by omega
    simp [processCheckpointResult, hlt, hne]
  · have hlt : ¬ r.seqNo < cs.lowWatermark := by omega
    simp only [processCheckpointResult, hlt, if_false, heq, if_true]
    by_cases hadv : cs.stopAtSeqNo < r.seqNo + cs.activeState.config.checkpointInterval <;>
      simp [hadv, applyCheckpointResultM]

/-- Witness for C3: a stale result is skipped, a result one interval past the
watermark is applied, and any other result at or above the watermark is fatal. -/
theorem checkpointResult_cases_witness :
    ((3 : Nat) < csW.lowWatermark ∧
      processCheckpointResult csW { seqNo := 3, value := 0 } = .ok (csW, [])) ∧
    (csW.lowWatermark ≤ 7 ∧
      (∃ m, processCheckpointResult csW { seqNo := 7, value := 0 } = .error m)) ∧
    (csW.lowWatermark + csW.activeState.config.checkpointInterval = 10 ∧
      (∃ acts, processCheckpointResult csW { seqNo := 10, value := 0 } =
          .ok ((applyCheckpointResultM csW { seqNo := 10, value := 0 }).1, acts) ∧
        (applyCheckpointResultM csW { seqNo := 10, value := 0 }).1.stopAtSeqNo =
          10 + csW.activeState.config.checkpointInterval)) :=
  ⟨⟨by decide, (checkpointResult_cases csW { seqNo := 3, value := 0 }).1 (by decide)⟩,
   ⟨by decide, (checkpointResult_cases csW { seqNo := 7, value := 0 }).2.1
      (by decide) (by decide)⟩,
   ⟨by decide, (checkpointResult_cases csW { seqNo := 10, value := 0 }).2.2 (by decide)⟩⟩

lemma alLookup_alErase {α : Type} (k k' : Nat) (l : List (Nat × α)) :
    alLookup k' (alErase k l) = if k' = k then none else alLookup k' l := by
  induction l with
  | nil => simp [alErase, alLookup]
  | cons p t ih =>
    by_cases hpk : p.1 = k
    · by_cases hk' : k' = k
      · simp only [alErase, hpk, if_true, hk'] at ih ⊢
        rw [ih]
      · have hpk' : ¬ k = k' := fun hh => hk' hh.symm
        simp [alErase, alLookup, hpk, hk', hpk', ih]
    · by_cases hpk' : p.1 = k'
      · have hk' : ¬ k' = k := fun hh => hpk (hpk'.trans hh)
        simp [alErase, alLookup, hpk, hpk', hk']
      · simp [alErase, alLookup, hpk, hpk', ih]

lemma alLookup_alInsert {α : Type} (k k' : Nat) (v : α) (l : List (Nat × α)) :
    alLookup k' (alInsert k v l) = if k' = k then some v else alLookup k' l := by
  by_cases hk' : k' = k
  · simp [alInsert, alLookup, hk']
  · have hk : ¬ k = k' := fun hh => hk' hh.symm
    simp [alInsert, alLookup, hk', hk, alLookup_alErase]

lemma mem_of_mem_alErase {α : Type} {p : Nat × α} {k : Nat} {l : List (Nat × α)}
    (h : p ∈ alErase k l) : p ∈ l := by
  induction l with
  | nil => simp [alErase] at h
  | cons q t ih =>
    by_cases hqk : q.1 = k
    · simp only [alErase, hqk, if_true] at h
      exact List.mem_cons_of_mem _ (ih h)
    · simp only [alErase, hqk, if_false, List.mem_cons] at h
      rcases h with h | h
      · exact h ▸ List.mem_cons_self _ _
      · exact List.mem_cons_of_mem _ (ih h)

lemma mem_alInsert {α : Type} {p : Nat × α} {k : Nat} {v : α} {l : List (Nat × α)}
    (h : p ∈ alInsert k v l) : p = (k, v) ∨ p ∈ l := by
  simp only [alInsert, List.mem_cons] at h
  rcases h with h | h
  · exact Or.inl h
  · exact Or.inr (mem_of_mem_alErase h)

lemma alLookup_ne_none_of_mem {α : Type} {k : Nat} {v : α} {l : List (Nat × α)}
    (h : (k, v) ∈ l) : alLookup k l ≠ none := by
  induction l with
  | nil => simp at h
  | cons q t ih =>
    rcases List.mem_cons.mp h with h | h
    · simp [alLookup, ← h]
    · by_cases hq : q.1 = k <;> simp [alLookup, hq, ih h]

lemma advanceLoop_noShared :
    ∀ (avail : List RequestAck) (c : List (Nat × RequestAck)) (o : List (Nat × Nat)),
      noSharedDigest c o →
      noSharedDigest (advanceLoop c o avail).1 (advanceLoop c o avail).2.1 := by
  intro avail
  induction avail with
  | nil => intro c o h; simpa [advanceLoop] using h
  | cons ack rest ih =>
    intro c o h
    cases hl : alLookup ack.digest o with
    | some seqId =>
      simp only [advanceLoop, hl]
      refine ih c (alErase ack.digest o) ?_
      intro p hp
      rw [alLookup_alErase]
      split
      · rfl
      · exact h p hp
    | none =>
      simp only [advanceLoop, hl]
      refine ih (alInsert ack.digest ack c) o ?_
      intro p hp
      rcases mem_alInsert hp with hq | hq
      · rw [hq]
        exact hl
      · exact h p hq

lemma applyAcksStep_noShared {seqId : Nat} {st st' : acksLoopState} {req : RequestAck}
    (h : noSharedDigest st.correct st.outstanding)
    (hs : applyAcksStep seqId st req = .ok st') :
    noSharedDigest st'.correct st'.outstanding := by
  unfold applyAcksStep at hs
  cases hc : alLookup req.clientId st.clients with
  | none => simp [hc] at hs
  | some co =>
    simp only [hc] at hs
    by_cases hr : co.nextReqNo ≠ req.reqNo
    · rw [if_pos hr] at hs
      exact absurd hs (by simp)
    · rw [if_neg hr] at hs
      cases hd : alLookup req.digest st.correct with
      | some a =>
        simp only [hd, Except.ok.injEq] at hs
        subst hs
        intro p hp
        exact h p (mem_of_mem_alErase hp)
      | none =>
        simp only [hd, Except.ok.injEq] at hs
        subst hs
        intro p hp
        rw [alLookup_alInsert]
        split
        · rename_i hpk
          exact absurd (hpk ▸ hd) (alLookup_ne_none_of_mem (hpk ▸ hp))
        · exact h p hp

lemma applyAcksLoop_noShared :
    ∀ (batch : List RequestAck) (seqId : Nat) (st : acksLoopState),
      noSharedDigest st.correct st.outstanding →
      noSharedDigest (applyAcksLoop seqId st batch).1.correct
        (applyAcksLoop seqId st batch).1.outstanding := by
  intro batch
  induction batch with
  | nil => intro seqId st h; simpa [applyAcksLoop] using h
  | cons req rest ih =>
    intro seqId st h
    cases hs : applyAcksStep seqId st req with
    | error e => simpa [applyAcksLoop, hs] using h
    | ok st' =>
      simp only [applyAcksLoop, hs]
      exact ih seqId st' (applyAcksStep_noShared h hs)

/-- C10: no digest is ever present in both the known-correct map and the
outstanding map.  Starting from a tracker satisfying the disjointness
invariant, both advanceRequests and applyAcks preserve it, including the
partially mutated state applyAcks leaves behind on an error return. -/
theorem digestMaps_disjoint (ao : allOutstandingReqs) (bucket seqId : Nat)
    (batch : List RequestAck)
    (h : noSharedDigest ao.correctRequests ao.outstandingRequests) :
    noSharedDigest (advanceRequests ao).1.correctRequests
      (advanceRequests ao).1.outstandingRequests ∧
    (match applyAcks ao bucket seqId batch with
     | .fatal _ => True
     | .err st _ => noSharedDigest st.correctRequests st.outstandingRequests
     | .ok st _ => noSharedDigest st.correctRequests st.outstandingRequests) := by
  constructor
  · exact advanceLoop_noShared ao.available ao.correctRequests ao.outstandingRequests h
  · unfold applyAcks
    cases hb : alLookup bucket ao.buckets with
    | none => trivial
    | some bo =>
      have hst : noSharedDigest
          ({ clients := bo.clients, correct := ao.correctRequests,
             outstanding := ao.outstandingRequests, keys := [] } : acksLoopState).correct
          ({ clients := bo.clients, correct := ao.correctRequests,
             outstanding := ao.outstandingRequests, keys := [] } : acksLoopState).outstanding := h
      have hres := applyAcksLoop_noShared batch seqId _ hst
      cases hl : applyAcksLoop seqId
          { clients := bo.clients, correct := ao.correctRequests,
            outstanding := ao.outstandingRequests, keys := [] } batch with
      | mk st r =>
        rw [hl] at hres
        cases r <;> simp only [hl] <;> simpa [acksWriteBack] using hres

/-- Witness for C10 at the concrete one-bucket tracker fixture. -/
theorem digestMaps_disjoint_witness :
    noSharedDigest aoW.correctRequests aoW.outstandingRequests ∧
    (noSharedDigest (advanceRequests aoW).1.correctRequests
        (advanceRequests aoW).1.outstandingRequests ∧
      (match applyAcks aoW 0 9 batchOkW with
       | .fatal _ => True
       | .err st _ => noSharedDigest st.correctRequests st.outstandingRequests
       | .ok st _ => noSharedDigest st.correctRequests st.outstandingRequests)) :=
  ⟨by decide, digestMaps_disjoint aoW 0 9 batchOkW (by decide)⟩

lemma countSatisfy_cons_satisfy (k s : Nat) (a : RequestAck) (l : actionSet) :
    countSatisfy k (MirAction.satisfy s a :: l) =
      (if a.digest = k then 1 else 0) + countSatisfy k l := by
  by_cases hd : a.digest = k
  · simp [countSatisfy, List.filter_cons, hd, Nat.add_comm]
  · simp [countSatisfy, List.filter_cons, hd]

lemma advanceLoop_satisfy_source :
    ∀ (avail : List RequestAck) (c : List (Nat × RequestAck)) (o : List (Nat × Nat))
      (s : Nat) (a : RequestAck),
      MirAction.satisfy s a ∈ (advanceLoop c o avail).2.2 → alLookup a.digest o = some s := by
  intro avail
  induction avail with
  | nil => intro c o s a h; simp [advanceLoop] at h
  | cons ack rest ih =>
    intro c o s a h
    cases hl : alLookup ack.digest o with
    | some seqId =>
      simp only [advanceLoop, hl, List.mem_cons] at h
      rcases h with h | h
      · obtain ⟨hs, ha⟩ := MirAction.satisfy.inj h
        subst hs
        subst ha
        exact hl
      · have := ih c (alErase ack.digest o) s a h
        rw [alLookup_alErase] at this
        by_cases hak : a.digest = ack.digest
        · rw [if_pos hak] at this
          exact absurd this (by simp)
        · rw [if_neg hak] at this
          exact this
    | none =>
      simp only [advanceLoop, hl] at h
      exact ih _ o s a h

lemma advanceLoop_count (k : Nat) :
    ∀ (avail : List RequestAck) (c : List (Nat × RequestAck)) (o : List (Nat × Nat)),
      countSatisfy k (advanceLoop c o avail).2.2 =
        if (alLookup k o).isSome ∧ k ∈ avail.map (fun a => a.digest) then 1 else 0 := by
  intro avail
  induction avail with
  | nil => intro c o; simp [advanceLoop, countSatisfy]
  | cons ack rest ih =>
    intro c o
    cases hl : alLookup ack.digest o with
    | some seqId =>
      simp only [advanceLoop, hl]
      rw [countSatisfy_cons_satisfy, ih]
      by_cases hak : ack.digest = k
      · subst hak
        rw [alLookup_alErase]
        simp [hl]
      · have hka : ¬ k = ack.digest := fun hh => hak hh.symm
        rw [alLookup_alErase, if_neg hka]
        simp only [List.map_cons, List.mem_cons, hak, if_neg hak]
        by_cases hmem : k ∈ rest.map (fun a => a.digest) <;>
          simp [hmem, hka, Nat.add_comm]
    | none =>
      simp only [advanceLoop, hl]
      rw [ih]
      by_cases hak : ack.digest = k
      · subst hak
        rw [hl]
        simp
      · have hka : ¬ k = ack.digest := fun hh => hak hh.symm
        simp [hka]

lemma advanceLoop_outstanding (k : Nat) :
    ∀ (avail : List RequestAck) (c : List (Nat × RequestAck)) (o : List (Nat × Nat)),
      alLookup k (advanceLoop c o avail).2.1 =
        if k ∈ avail.map (fun a => a.digest) then none else alLookup k o := by
  intro avail
  induction avail with
  | nil => intro c o; simp [advanceLoop]
  | cons ack rest ih =>
    intro c o
    cases hl : alLookup ack.digest o with
    | some seqId =>
      simp only [advanceLoop, hl]
      rw [ih, alLookup_alErase]
      by_cases hka : k = ack.digest
      · simp [hka]
      · have hak : ¬ ack.digest = k := fun hh => hka hh.symm
        simp only [List.map_cons, List.mem_cons, hka, hak]
        by_cases hmem : k ∈ rest.map (fun a => a.digest) <;> simp [hmem, hka]
    | none =>
      simp only [advanceLoop, hl]
      rw [ih]
      by_cases hka : k = ack.digest
      · rw [← hka] at hl
        rw [hl]
        simp
      · have hak : ¬ ack.digest = k := fun hh => hka hh.symm
        simp [hka, hak]

lemma advanceLoop_correct_isSome (k : Nat) :
    ∀ (avail : List RequestAck) (c : List (Nat × RequestAck)) (o : List (Nat × Nat)),
      (alLookup k c).isSome → (alLookup k (advanceLoop c o avail).1).isSome := by
  intro avail
  induction avail with
  | nil => intro c o h; simpa [advanceLoop] using h
  | cons ack rest ih =>
    intro c o h
    cases hl : alLookup ack.digest o with
    | some seqId =>
      simp only [advanceLoop, hl]
      exact ih c _ h
    | none =>
      simp only [advanceLoop, hl]
      refine ih _ o ?_
      rw [alLookup_alInsert]
      split <;> simp [h]

lemma advanceLoop_cached (k : Nat) :
    ∀ (avail : List RequestAck) (c : List (Nat × RequestAck)) (o : List (Nat × Nat)),
      alLookup k o = none → k ∈ avail.map (fun a => a.digest) →
      (alLookup k (advanceLoop c o avail).1).isSome := by
  intro avail
  induction avail with
  | nil => intro c o _ h; simp at h
  | cons ack rest ih =>
    intro c o ho hmem
    cases hl : alLookup ack.digest o with
    | some seqId =>
      have hka : ¬ k = ack.digest := by
        intro hh
        rw [← hh] at hl
        rw [ho] at hl
        exact Option.noConfusion hl
      simp only [advanceLoop, hl]
      refine ih c _ ?_ ?_
      · rw [alLookup_alErase, if_neg hka]
        exact ho
      · simpa [hka] using hmem
    | none =>
      simp only [advanceLoop, hl]
      by_cases hka : k = ack.digest
      · refine advanceLoop_correct_isSome k rest _ o ?_
        rw [alLookup_alInsert, if_pos hka]
        rfl
      · refine ih _ o ho ?_
        simpa [hka] using hmem

/-- C4: one advanceRequests drain satisfies any given digest at most once;
a digest registered outstanding that appears in the drained queue is removed
from the outstanding map and satisfied exactly once, against exactly the
sequence it was registered for; a digest not outstanding is never satisfied
and, if drained, ends up cached in the known-correct map. -/
theorem advanceRequests_no_duplicate_satisfaction (ao : allOutstandingReqs) (k : Nat) :
    countSatisfy k (advanceRequests ao).2 ≤ 1 ∧
    (∀ s a, MirAction.satisfy s a ∈ (advanceRequests ao).2 →
        alLookup a.digest ao.outstandingRequests = some s) ∧
    ((alLookup k ao.outstandingRequests).isSome →
      k ∈ ao.available.map (fun a => a.digest) →
        alLookup k (advanceRequests ao).1.outstandingRequests = none ∧
        countSatisfy k (advanceRequests ao).2 = 1) ∧
    (alLookup k ao.outstandingRequests = none →
        countSatisfy k (advanceRequests ao).2 = 0 ∧
        (k ∈ ao.available.map (fun a => a.digest) →
          (alLookup k (advanceRequests ao).1.correctRequests).isSome)) := by
  refine ⟨?_, ?_, fun hsome hmem => ⟨?_, ?_⟩, fun hnone => ⟨?_, fun hmem => ?_⟩⟩
  · show countSatisfy k (advanceLoop _ _ _).2.2 ≤ 1
    rw [advanceLoop_count]
    split <;> omega
  · intro s a h
    exact advanceLoop_satisfy_source ao.available ao.correctRequests ao.outstandingRequests s a h
  · show alLookup k (advanceLoop _ _ _).2.1 = none
    rw [advanceLoop_outstanding, if_pos hmem]
  · show countSatisfy k (advanceLoop _ _ _).2.2 = 1
    rw [advanceLoop_count, if_pos ⟨hsome, hmem⟩]
  · show countSatisfy k (advanceLoop _ _ _).2.2 = 0
    rw [advanceLoop_count]
    simp [hnone]
  · show (alLookup k (advanceLoop _ _ _).1).isSome
    exact advanceLoop_cached k ao.available ao.correctRequests ao.outstandingRequests hnone hmem

/-- Witness for C4: digest 77 is outstanding for sequence 42 and drained
twice; it is satisfied once, removed, and the duplicate is cached. -/
theorem advanceRequests_no_duplicate_satisfaction_witness :
    (alLookup 77 aoAdvW.outstandingRequests).isSome ∧
    77 ∈ aoAdvW.available.map (fun a => a.digest) ∧
    (alLookup 77 (advanceRequests aoAdvW).1.outstandingRequests = none ∧
      countSatisfy 77 (advanceRequests aoAdvW).2 = 1) :=
  ⟨by decide, by decide,
   (advanceRequests_no_duplicate_satisfaction aoAdvW 77).2.2.1 (by decide) (by decide)⟩

lemma applyAcksLoop_ok_iff :
    ∀ (batch : List RequestAck) (seqId : Nat) (st : acksLoopState),
      (applyAcksLoop seqId st batch).2 = none ↔ acksOk st.clients batch = true := by
  intro batch
  induction batch with
  | nil => intro seqId st; simp [applyAcksLoop, acksOk]
  | cons req rest ih =>
    intro seqId st
    simp only [applyAcksLoop, acksOk]
    cases hc : alLookup req.clientId st.clients with
    | none => simp [applyAcksStep, hc]
    | some co =>
      by_cases hr : co.nextReqNo = req.reqNo
      · cases hd : alLookup req.digest st.correct <;>
          simp [applyAcksStep, hc, hr, hd, ih]
      · have hr' : co.nextReqNo ≠ req.reqNo := hr
        simp [applyAcksStep, hc, hr', hr]

lemma applyAcksLoop_keys_registered :
    ∀ (batch : List RequestAck) (seqId : Nat) (st : acksLoopState),
      (∀ d ∈ st.keys, alLookup d st.outstanding = some seqId) →
      ∀ d ∈ (applyAcksLoop seqId st batch).1.keys,
        alLookup d (applyAcksLoop seqId st batch).1.outstanding = some seqId := by
  intro batch
  induction batch with
  | nil => intro seqId st h; simpa [applyAcksLoop] using h
  | cons req rest ih =>
    intro seqId st h
    cases hs : applyAcksStep seqId st req with
    | error e => simpa [applyAcksLoop, hs] using h
    | ok st' =>
      simp only [applyAcksLoop, hs]
      refine ih seqId st' ?_
      unfold applyAcksStep at hs
      cases hc : alLookup req.clientId st.clients with
      | none => simp [hc] at hs
      | some co =>
        simp only [hc] at hs
        by_cases hr : co.nextReqNo ≠ req.reqNo
        · rw [if_pos hr] at hs
          exact absurd hs (by simp)
        · rw [if_neg hr] at hs
          cases hd : alLookup req.digest st.correct with
          | some a =>
            simp only [hd, Except.ok.injEq] at hs
            subst hs
            exact h
          | none =>
            simp only [hd, Except.ok.injEq] at hs
            subst hs
            intro d hdm
            simp only [List.mem_append, List.mem_singleton] at hdm
            rw [alLookup_alInsert]
            rcases hdm with hdm | hdm
            · split
              · rfl
              · exact h d hdm
            · simp [hdm]

lemma applyAcksLoop_err_prefix :
    ∀ (batch : List RequestAck) (seqId : Nat) (st stp : acksLoopState) (e : String),
      applyAcksLoop seqId st batch = (stp, some e) →
      ∃ pre req post, batch = pre ++ req :: post ∧
        applyAcksLoop seqId st pre = (stp, none) ∧
        applyAcksStep seqId stp req = .error e := by
  intro batch
  induction batch with
  | nil => intro seqId st stp e h; simp [applyAcksLoop] at h
  | cons req rest ih =>
    intro seqId st stp e h
    cases hs : applyAcksStep seqId st req with
    | error e0 =>
      simp only [applyAcksLoop, hs] at h
      obtain ⟨hst, he⟩ := Prod.mk.injEq .. ▸ h
      refine ⟨[], req, rest, rfl, ?_, ?_⟩
      · rw [applyAcksLoop, ← hst]
      · rw [← hst, hs]
        injection he with he'
        rw [he']
    | ok st' =>
      simp only [applyAcksLoop, hs] at h
      obtain ⟨pre, req', post, hsplit, hpre, hstep⟩ := ih seqId st' stp e h
      exact ⟨req :: pre, req', post, by rw [hsplit]; rfl, by rw [applyAcksLoop, hs]; exact hpre, hstep⟩

/-- C2: applyAcks is strict about acknowledgement batches.  When some
acknowledgement names an unknown client or a request number different from
that client evolving next-expected number for the bucket, applyAcks returns
an error, and by construction of the err outcome no allocation action set is
produced for the sequence.  When every acknowledgement matches exactly,
applyAcks succeeds and returns exactly the allocation produced by
seq.allocate for the batch, regardless of how many digests remain
outstanding; every digest it left outstanding is registered against the
target sequence. -/
theorem applyAcks_strict (ao : allOutstandingReqs) (bucket seqId : Nat)
    (batch : List RequestAck) (bo : bucketOutstandingReqs)
    (hb : alLookup bucket ao.buckets = some bo) :
    (acksOk bo.clients batch = false →
      ∃ st e, applyAcks ao bucket seqId batch = .err st e) ∧
    (acksOk bo.clients batch = true →
      ∃ st keys, applyAcks ao bucket seqId batch = .ok st [MirAction.allocate seqId batch keys] ∧
        ∀ d ∈ keys, alLookup d st.outstandingRequests = some seqId) := by
  unfold applyAcks
  simp only [hb]
  constructor
  · intro hbad
    cases hl : applyAcksLoop seqId
        { clients := bo.clients, correct := ao.correctRequests,
          outstanding := ao.outstandingRequests, keys := [] } batch with
    | mk st r =>
      cases r with
      | none =>
        have hok : acksOk bo.clients batch = true :=
          (applyAcksLoop_ok_iff batch seqId _).mp (by rw [hl])
        rw [hbad] at hok
        exact absurd hok (by simp)
      | some e => exact ⟨acksWriteBack ao bucket st, e, by simp [hl]⟩
  · intro hgood
    cases hl : applyAcksLoop seqId
        { clients := bo.clients, correct := ao.correctRequests,
          outstanding := ao.outstandingRequests, keys := [] } batch with
    | mk st r =>
      cases r with
      | none =>
        refine ⟨acksWriteBack ao bucket st, st.keys, by simp [hl], ?_⟩
        have hreg := applyAcksLoop_keys_registered batch seqId
          { clients := bo.clients, correct := ao.correctRequests,
            outstanding := ao.outstandingRequests, keys := [] } (by intro d hd; simp at hd)
        rw [hl] at hreg
        exact hreg
      | some e =>
        have hnone : (applyAcksLoop seqId
            { clients := bo.clients, correct := ao.correctRequests,
              outstanding := ao.outstandingRequests, keys := [] } batch).2 = none :=
          (applyAcksLoop_ok_iff batch seqId _).mpr hgood
        rw [hl] at hnone
        exact absurd hnone (by simp)

/-- Witness for C2: the fixture bucket accepts the exactly-sequential batch
even though both its digests remain outstanding, and the claim hypotheses are
discharged concretely. -/
theorem applyAcks_strict_witness :
    alLookup 0 aoW.buckets = some { clients := [(5, corsW)] } ∧
    acksOk [(5, corsW)] batchOkW = true ∧
    (∃ st keys, applyAcks aoW 0 9 batchOkW = .ok st [MirAction.allocate 9 batchOkW keys] ∧
      ∀ d ∈ keys, alLookup d st.outstandingRequests = some 9) :=
  ⟨by decide, by decide,
   (applyAcks_strict aoW 0 9 batchOkW { clients := [(5, corsW)] } (by decide)).2 (by decide)⟩

/-- C9: applyAcks is not atomic on error.  The tracker state it returns with
an error is exactly the state after processing the longest successfully
handled prefix of the batch: the per-client counters already advanced, the
known-correct deletions and the outstanding insertions of that prefix are
retained, not rolled back, while no allocation is produced. -/
theorem applyAcks_error_keeps_prefix_mutations (ao : allOutstandingReqs)
    (bucket seqId : Nat) (batch : List RequestAck) (st : allOutstandingReqs) (e : String)
    (h : applyAcks ao bucket seqId batch = .err st e) :
    ∃ bo pre req post stp, alLookup bucket ao.buckets = some bo ∧
      batch = pre ++ req :: post ∧
      applyAcksLoop seqId
        { clients := bo.clients, correct := ao.correctRequests,
          outstanding := ao.outstandingRequests, keys := [] } pre = (stp, none) ∧
      applyAcksStep seqId stp req = .error e ∧
      st = acksWriteBack ao bucket stp := by
  unfold applyAcks at h
  cases hb : alLookup bucket ao.buckets with
  | none => rw [hb] at h; exact absurd h (by cases h)
  | some bo =>
    simp only [hb] at h
    cases hl : applyAcksLoop seqId
        { clients := bo.clients, correct := ao.correctRequests,
          outstanding := ao.outstandingRequests, keys := [] } batch with
    | mk stp r =>
      cases r with
      | none =>
        simp only [hl] at h
        exact absurd h (by simp)
      | some e0 =>
        simp only [hl, acksResult.err.injEq] at h
        obtain ⟨hst, he⟩ := h
        subst he
        obtain ⟨pre, req, post, hsplit, hpre, hstep⟩ :=
          applyAcksLoop_err_prefix batch seqId _ stp e0 hl
        exact ⟨bo, pre, req, post, stp, rfl, hsplit, hpre, hstep, hst.symm⟩

/-- Witness for C9: rejecting the second acknowledgement of batchErrW leaves
the first acknowledgement mutations in place: the client counter moved to 4
and digest 77 stayed registered outstanding, although no allocation was
returned. -/
theorem applyAcks_error_keeps_prefix_mutations_witness :
    applyAcks aoW 0 9 batchErrW =
      .err stErrW "unexpected request number for client in bucket" ∧
    stErrW ≠ aoW ∧ stErrW.outstandingRequests = [(77, 9)] ∧
    (∃ bo pre req post stp, alLookup 0 aoW.buckets = some bo ∧
      batchErrW = pre ++ req :: post ∧
      applyAcksLoop 9
        { clients := bo.clients, correct := aoW.correctRequests,
          outstanding := aoW.outstandingRequests, keys := [] } pre = (stp, none) ∧
      applyAcksStep 9 stp req = .error "unexpected request number for client in bucket" ∧
      stErrW = acksWriteBack aoW 0 stp) :=
  ⟨by decide, by decide, by decide,
   applyAcks_error_keeps_prefix_mutations aoW 0 9 batchErrW stErrW _ (by decide)⟩

lemma recoverLogLoop_noC :
    ∀ (l cur : List (Nat × persistent)),
      l.all (fun e => !isCEntryB e.2) = true →
      ∃ m, recoverLogLoop none l cur = .error m := by
  intro l
  induction l with
  | nil => intro cur _; exact ⟨_, rfl⟩
  | cons entry rest ih =>
    intro cur hall
    simp only [List.all_cons, Bool.and_eq_true] at hall
    cases hp : entry.2 <;> simp only [recoverLogLoop, hp]
    case cEntry s => rw [hp] at hall; simp [isCEntryB] at hall
    case fEntry => exact ⟨_, rfl⟩
    all_goals exact ih cur hall.2

lemma recoverLogLoop_fEntryFirst :
    ∀ (pre : List (Nat × persistent)) (i : Nat) (post cur : List (Nat × persistent)),
      pre.all (fun e => !isCEntryB e.2) = true →
      ∃ m, recoverLogLoop none (pre ++ (i, persistent.fEntry) :: post) cur = .error m := by
  intro pre
  induction pre with
  | nil => intro i post cur _; exact ⟨_, rfl⟩
  | cons entry rest ih =>
    intro i post cur hall
    simp only [List.all_cons, Bool.and_eq_true] at hall
    cases hp : entry.2 <;> simp only [List.cons_append, recoverLogLoop, hp]
    case cEntry s => rw [hp] at hall; simp [isCEntryB] at hall
    case fEntry => exact ⟨_, rfl⟩
    all_goals exact ih i post cur hall.2

lemma recoverLogLoop_wf :
    ∀ (l : List (Nat × persistent)) (acc : Option Nat) (cur : List (Nat × persistent)),
      wfLog l acc.isSome = true →
      ∃ log' acts, recoverLogLoop acc l cur =
        .ok (log', acts, fEntryTargets acc (l.map (fun e => e.2))) := by
  intro l
  induction l with
  | nil =>
    intro acc cur hwf
    cases acc with
    | none => simp [wfLog] at hwf
    | some s => exact ⟨cur, [], rfl⟩
  | cons entry rest ih =>
    intro acc cur hwf
    obtain ⟨i, p⟩ := entry
    cases p <;> simp only [wfLog] at hwf <;>
      simp only [recoverLogLoop, List.map_cons, fEntryTargets]
    case cEntry s => exact ih (some s) cur hwf
    case fEntry =>
      rw [Bool.and_eq_true] at hwf
      cases acc with
      | none => simp at hwf
      | some s =>
        obtain ⟨log', acts, hrec⟩ := ih (some s) (persistedTruncate s cur).1 hwf.2
        refine ⟨log', (persistedTruncate s cur).2 ++ acts, ?_⟩
        simp only [hrec, Except.map]
    all_goals exact ih acc cur hwf

/-- C6: recoverLog fatally asserts when the loaded log holds no CEntry and
when an FEntry appears before any CEntry; on a well-formed log it succeeds
and the sequence of low watermarks it passes to persisted.truncate is exactly
one truncation per FEntry, each to the sequence number of the most recent
preceding CEntry.  completeInitialization reaches recoverLog through
reinitialize, so a fatal recovery walk makes completeInitialization fatal. -/
theorem recoverLog_checkpoint_requirements (log : List (Nat × persistent)) :
    (log.all (fun e => !isCEntryB e.2) = true → ∃ m, recoverLog log = .error m) ∧
    (∀ pre i post, log = pre ++ (i, persistent.fEntry) :: post →
      pre.all (fun e => !isCEntryB e.2) = true → ∃ m, recoverLog log = .error m) ∧
    (wfLog log false = true → ∃ log' acts,
      recoverLog log = .ok (log', acts, fEntryTargets none (log.map (fun e => e.2)))) ∧
    (∀ (sm : StateMachine) (m : String), sm.phase = smPhase.smLoadingPersisted →
      sm.persistedLog = log → recoverLog log = .error m →
      ∃ m', applyEvent sm .completeInit = .error m') := by
  refine ⟨fun h => recoverLogLoop_noC log log h,
          fun pre i post hsplit h => ?_,
          fun hwf => ?_, fun sm m hph hlog herr => ?_⟩
  · rw [hsplit]
    exact recoverLogLoop_fEntryFirst pre i post (pre ++ (i, persistent.fEntry) :: post) h
  · exact recoverLogLoop_wf log none log (by simpa using hwf)
  · simp only [applyEvent, hph, reinitializeSM]
    have : ({ sm with phase := smPhase.smInitialized } : StateMachine).persistedLog = log := hlog
    rw [this, herr]
    exact ⟨m, rfl⟩

/-- Witness for C6: the empty-of-checkpoints log and the FEntry-first log are
fatal, the well-formed fixture recovers with one truncation to sequence 0,
and a state machine loaded with the checkpoint-free log dies at
completeInitialization. -/
theorem recoverLog_checkpoint_requirements_witness :
    (logNoCW.all (fun e => !isCEntryB e.2) = true ∧
      (∃ m, recoverLog logNoCW = .error m)) ∧
    (logFFirstW = [] ++ (0, persistent.fEntry) :: [(1, persistent.cEntry 2)] ∧
      (∃ m, recoverLog logFFirstW = .error m)) ∧
    (wfLog logOkW false = true ∧
      (∃ log' acts, recoverLog logOkW =
        .ok (log', acts, fEntryTargets none (logOkW.map (fun e => e.2))))) ∧
    (∃ m', applyEvent smLoadW .completeInit = .error m') :=
  ⟨⟨by decide, (recoverLog_checkpoint_requirements logNoCW).1 (by decide)⟩,
   ⟨by decide, (recoverLog_checkpoint_requirements logFFirstW).2.1 [] 0
      [(1, persistent.cEntry 2)] (by decide) (by decide)⟩,
   ⟨by decide, (recoverLog_checkpoint_requirements logOkW).2.2.1 (by decide)⟩,
   (recoverLog_checkpoint_requirements logNoCW).2.2.2 smLoadW
     "found no checkpoints in the log" rfl rfl (by rfl)⟩

lemma filterGE_mono (t : List Nat) (r nb : Nat) :
    (t.filter (fun x => decide (r + nb ≤ x))).length ≤
      (t.filter (fun x => decide (r ≤ x))).length := by
  induction t with
  | nil => simp
  | cons a t ih =>
    by_cases h1 : r + nb ≤ a
    · have h2 : r ≤ a := by omega
      simp only [List.filter_cons, h1, h2, decide_True, if_true, List.length_cons]
      omega
    · by_cases h2 : r ≤ a <;>
        simp [List.filter_cons, h1, h2] <;> omega

lemma filterGE_lt (l : List Nat) (r nb : Nat) (hnb : 1 ≤ nb) (hr : r ∈ l) :
    (l.filter (fun x => decide (r + nb ≤ x))).length <
      (l.filter (fun x => decide (r ≤ x))).length := by
  induction l with
  | nil => cases hr
  | cons a t ih =>
    have hmono := filterGE_mono t r nb
    rcases List.mem_cons.mp hr with h | h
    · subst h
      have h1 : ¬ r + nb ≤ r := by omega
      simp [List.filter_cons, h1]
      omega
    · have hih := ih h
      by_cases h1 : r + nb ≤ a
      · have h2 : r ≤ a := by omega
        simp [List.filter_cons, h1, h2]
        omega
      · by_cases h2 : r ≤ a <;>
          simp [List.filter_cons, h1, h2] <;> omega

lemma skipAux_spec (client : NetworkStateClient) (nb : Nat) (hnb : 1 ≤ nb) :
    ∀ (fuel r : Nat),
      (client.committed.filter (fun x => decide (r ≤ x))).length < fuel →
      ∃ k, skipAux client nb fuel r = r + k * nb ∧
        isCommitted (r + k * nb) client = false ∧
        ∀ j, j < k → isCommitted (r + j * nb) client = true := by
  intro fuel
  induction fuel with
  | zero => intro r h; exact absurd h (Nat.not_lt_zero _)
  | succ f ih =>
    intro r h
    by_cases hc : isCommitted r client
    · have hrmem : r ∈ client.committed := by simpa [isCommitted] using hc
      have hlt : (client.committed.filter (fun x => decide (r + nb ≤ x))).length <
          (client.committed.filter (fun x => decide (r ≤ x))).length :=
        filterGE_lt client.committed r nb hnb hrmem
      obtain ⟨k1, hskip, hnc, hall⟩ := ih (r + nb) (by omega)
      refine ⟨k1 + 1, ?_, ?_, ?_⟩
      · simp only [skipAux, hc, if_true]
        rw [hskip]
        ring
      · have he : r + (k1 + 1) * nb = r + nb + k1 * nb := by ring
        rw [he]
        exact hnc
      · intro j hj
        cases j with
        | zero => simpa using hc
        | succ j' =>
          have he : r + (j' + 1) * nb = r + nb + j' * nb := by ring
          rw [he]
          exact hall j' (by omega)
    · rw [Bool.not_eq_true] at hc
      refine ⟨0, by simp [skipAux, hc], by simpa using hc, fun j hj => by omega⟩

lemma skipPreviouslyCommitted_spec (cors : clientOutstandingReqs) (hnb : 1 ≤ cors.numBuckets) :
    ∃ k, (skipPreviouslyCommitted cors).nextReqNo = cors.nextReqNo + k * cors.numBuckets ∧
      isCommitted (cors.nextReqNo + k * cors.numBuckets) cors.client = false ∧
      ∀ j, j < k → isCommitted (cors.nextReqNo + j * cors.numBuckets) cors.client = true := by
  have hfuel : (cors.client.committed.filter (fun x => decide (cors.nextReqNo ≤ x))).length <
      cors.client.committed.length + 1 := by
    have := List.length_filter_le (fun x => decide (cors.nextReqNo ≤ x)) cors.client.committed
    omega
  exact skipAux_spec cors.client cors.numBuckets hnb (cors.client.committed.length + 1)
    cors.nextReqNo hfuel

lemma find?_range'_spec (p : Nat → Bool) :
    ∀ (n start j : Nat), (List.range' start n).find? p = some j →
      p j = true ∧ start ≤ j ∧ ∀ i, start ≤ i → i < j → p i = false := by
  intro n
  induction n with
  | zero => intro start j h; simp [List.range'] at h
  | succ n ih =>
    intro start j h
    rw [List.range'_succ] at h
    by_cases hp : p start
    · rw [List.find?_cons_of_pos _ hp] at h
      injection h with hj
      subst hj
      exact ⟨hp, le_refl _, fun i h1 h2 => by omega⟩
    · rw [List.find?_cons_of_neg _ hp] at h
      obtain ⟨hpj, hle, hmin⟩ := ih (start + 1) j h
      refine ⟨hpj, by omega, fun i hi1 hi2 => ?_⟩
      by_cases hieq : i = start
      · subst hieq
        rw [Bool.not_eq_true] at hp
        exact hp
      · exact hmin i (by omega) hi2

lemma foldl_alInsert_preserve (g : NetworkStateClient → clientOutstandingReqs) :
    ∀ (cs : List NetworkStateClient) (acc : List (Nat × clientOutstandingReqs)) (k : Nat),
      (∀ c' ∈ cs, c'.id ≠ k) →
      alLookup k (cs.foldl (fun m c => alInsert c.id (g c) m) acc) = alLookup k acc := by
  intro cs
  induction cs with
  | nil => intro acc k _; rfl
  | cons c cs ih =>
    intro acc k hne
    rw [List.foldl_cons]
    rw [ih _ k (fun c' hc' => hne c' (List.mem_cons_of_mem _ hc'))]
    rw [alLookup_alInsert]
    rw [if_neg (fun hh => hne c (List.mem_cons_self _ _) hh.symm)]

lemma foldl_alInsert_lookup (g : NetworkStateClient → clientOutstandingReqs) :
    ∀ (cs : List NetworkStateClient) (acc : List (Nat × clientOutstandingReqs))
      (c : NetworkStateClient), c ∈ cs → (cs.map (fun x => x.id)).Nodup →
      alLookup c.id (cs.foldl (fun m x => alInsert x.id (g x) m) acc) = some (g c) := by
  intro cs
  induction cs with
  | nil => intro acc c hc; cases hc
  | cons c0 cs ih =>
    intro acc c hc hnodup
    simp only [List.map_cons, List.nodup_cons] at hnodup
    rw [List.foldl_cons]
    rcases List.mem_cons.mp hc with hceq | hcm
    · subst hceq
      rw [foldl_alInsert_preserve g cs _ c.id
          (fun c' h' heq => hnodup.1 (heq ▸ List.mem_map_of_mem (fun x => x.id) h'))]
      rw [alLookup_alInsert, if_pos rfl]
    · exact ih _ c hcm hnodup.2

lemma alLookup_range'_map {α : Type} (f : Nat → α) :
    ∀ (n start b : Nat), start ≤ b → b < start + n →
      alLookup b ((List.range' start n).map (fun i => (i, f i))) = some (f b) := by
  intro n
  induction n with
  | zero => intro start b h1 h2; omega
  | succ n ih =>
    intro start b h1 h2
    rw [List.range'_succ, List.map_cons]
    by_cases hb : start = b
    · simp [alLookup, hb]
    · simp only [alLookup, hb, if_false]
      exact ih (start + 1) b (by omega) (by omega)

lemma bucket_hit_exists (id lw b nb : Nat) (hb : b < nb) :
    ∃ j, j < nb ∧ (id + (lw + j)) % nb = b := by
  have hnb : 0 < nb := by omega
  have hm : (id + lw) % nb < nb := Nat.mod_lt _ hnb
  refine ⟨(b + nb - (id + lw) % nb) % nb, Nat.mod_lt _ hnb, ?_⟩
  have e1 : id + (lw + (b + nb - (id + lw) % nb) % nb) =
      (id + lw) + (b + nb - (id + lw) % nb) % nb := by ring
  have e2 : (id + lw) % nb + (b + nb - (id + lw) % nb) = b + nb := by omega
  rw [e1, Nat.add_mod_mod, ← Nat.mod_add_mod, e2, Nat.add_mod_right,
      Nat.mod_eq_of_lt hb]

/-- C7: after newOutstandingReqs, for every bucket b and every client c of
the network state (with distinct client ids), the stored nextReqNo for c in
bucket b is the least request number r at or above the client low watermark
that maps to bucket b and is not already committed; every smaller request
number at or above the low watermark mapping to b is committed.  The
numberOfBuckets-wide search window of the Go loop suffices because the bucket
rotation meets every bucket exactly once per window. -/
theorem newOutstandingReqs_nextReqNo (avail : List RequestAck) (ns : NetworkState)
    (b : Nat) (c : NetworkStateClient) (bo : bucketOutstandingReqs)
    (cors : clientOutstandingReqs)
    (hb : b < ns.config.numberOfBuckets)
    (hc : c ∈ ns.clients)
    (hnodup : (ns.clients.map (fun x => x.id)).Nodup)
    (hbo : alLookup b (newOutstandingReqs avail ns).buckets = some bo)
    (hcors : alLookup c.id bo.clients = some cors) :
    c.lowWatermark ≤ cors.nextReqNo ∧
    clientReqToBucket c.id cors.nextReqNo ns.config = b ∧
    isCommitted cors.nextReqNo c = false ∧
    ∀ r, c.lowWatermark ≤ r → r < cors.nextReqNo →
      clientReqToBucket c.id r ns.config = b → isCommitted r c = true := by
  have hbuckets : (newOutstandingReqs avail ns).buckets =
      (List.range ns.config.numberOfBuckets).map (fun i =>
        (i, ({ clients := ns.clients.foldl
                (fun m x => alInsert x.id (newCors ns.config i x) m) [] }
            : bucketOutstandingReqs))) := rfl
  have hlk := alLookup_range'_map (fun i =>
      ({ clients := ns.clients.foldl
          (fun m x => alInsert x.id (newCors ns.config i x) m) [] }
        : bucketOutstandingReqs)) ns.config.numberOfBuckets 0 b (Nat.zero_le b)
      (by omega)
  rw [← List.range_eq_range'] at hlk
  rw [hbuckets, hlk] at hbo
  injection hbo with hboeq
  subst hboeq
  rw [foldl_alInsert_lookup (newCors ns.config b) ns.clients [] c hc hnodup] at hcors
  injection hcors with hcorseq
  subst hcorseq
  -- analyze the bucket search of newCors
  obtain ⟨j, hjlt, hjb⟩ := bucket_hit_exists c.id c.lowWatermark b
    ns.config.numberOfBuckets hb
  have hpj : (fun j => clientReqToBucket c.id (c.lowWatermark + j) ns.config == b) j
      = true := by
    simp only [clientReqToBucket, beq_iff_eq]
    exact hjb
  have hsome : ((List.range ns.config.numberOfBuckets).find?
      (fun j => clientReqToBucket c.id (c.lowWatermark + j) ns.config == b)).isSome := by
    rw [List.range_eq_range']
    exact List.find?_isSome.mpr ⟨j, by rw [List.mem_range'_1]; omega, hpj⟩
  obtain ⟨j0, hj0⟩ := Option.isSome_iff_exists.mp hsome
  have hj0spec := find?_range'_spec
    (fun j => clientReqToBucket c.id (c.lowWatermark + j) ns.config == b)
    ns.config.numberOfBuckets 0 j0 (by rw [← List.range_eq_range']; exact hj0)
  have hj0b : (c.id + (c.lowWatermark + j0)) % ns.config.numberOfBuckets = b := by
    have := hj0spec.1
    simpa only [clientReqToBucket, beq_iff_eq] using this
  have hcors_eq : newCors ns.config b c = skipPreviouslyCommitted
      { nextReqNo := c.lowWatermark + j0, numBuckets := ns.config.numberOfBuckets,
        client := c } := by
    simp only [newCors, hj0]
  obtain ⟨k, hkeq, hknc, hkall⟩ := skipPreviouslyCommitted_spec
    { nextReqNo := c.lowWatermark + j0, numBuckets := ns.config.numberOfBuckets,
      client := c } (show 1 ≤ ns.config.numberOfBuckets by omega)
  have hnext : (newCors ns.config b c).nextReqNo =
      c.lowWatermark + j0 + k * ns.config.numberOfBuckets := by
    rw [hcors_eq]
    exact hkeq
  refine ⟨?_, ?_, ?_, ?_⟩
  · rw [hnext]; omega
  · rw [hnext]
    simp only [clientReqToBucket]
    have e : c.id + (c.lowWatermark + j0 + k * ns.config.numberOfBuckets) =
        c.id + (c.lowWatermark + j0) + k * ns.config.numberOfBuckets := by ring
    rw [e, Nat.add_mul_mod_self_right]
    exact hj0b
  · rw [hnext]
    exact hknc
  · intro r h1 h2 h3
    rw [hnext] at h2
    have h3' : (c.id + r) % ns.config.numberOfBuckets = b := h3
    by_cases hrs : r < c.lowWatermark + j0
    · exfalso
      have hmin := hj0spec.2.2 (r - c.lowWatermark) (Nat.zero_le _) (by omega)
      simp only [clientReqToBucket, beq_iff_eq] at hmin
      have hre : c.lowWatermark + (r - c.lowWatermark) = r := by omega
      rw [hre] at hmin
      exact (Bool.false_ne_true (hmin ▸ (decide_eq_true_eq.mpr h3' : _))).elim
    · push_neg at hrs
      have hmodeq : Nat.ModEq ns.config.numberOfBuckets
          (c.id + (c.lowWatermark + j0)) (c.id + r) := by
        show (c.id + (c.lowWatermark + j0)) % ns.config.numberOfBuckets =
          (c.id + r) % ns.config.numberOfBuckets
        rw [hj0b, h3']
      have hcan : Nat.ModEq ns.config.numberOfBuckets (c.lowWatermark + j0) r :=
        Nat.ModEq.add_left_cancel' c.id hmodeq
      have hdvd : ns.config.numberOfBuckets ∣ r - (c.lowWatermark + j0) :=
        (Nat.modEq_iff_dvd' hrs).mp hcan
      obtain ⟨d, hd⟩ := hdvd
      rw [Nat.mul_comm] at hd
      have hdk : d < k := by
        have hmul : d * ns.config.numberOfBuckets < k * ns.config.numberOfBuckets := by
          omega
        exact Nat.lt_of_mul_lt_mul_right hmul
      have hcm := hkall d hdk
      have hre : r = c.lowWatermark + j0 + d * ns.config.numberOfBuckets := by omega
      rw [hre]
      exact hcm

/-- Witness for C7 at the two-bucket fixture: for bucket 1 the fixture
client, with low watermark 4 and request numbers 4 and 6 committed, gets
nextReqNo 8, the least uncommitted request number of bucket 1 at or above
the watermark. -/
theorem newOutstandingReqs_nextReqNo_witness :
    (1 < nsW.config.numberOfBuckets ∧
      ({ id := 1, lowWatermark := 4, committed := [4, 6] } : NetworkStateClient)
        ∈ nsW.clients) ∧
    (∃ bo cors, alLookup 1 (newOutstandingReqs [] nsW).buckets = some bo ∧
      alLookup 1 bo.clients = some cors ∧ cors.nextReqNo = 8 ∧
      (4 ≤ cors.nextReqNo ∧
        clientReqToBucket 1 cors.nextReqNo nsW.config = 1 ∧
        isCommitted cors.nextReqNo
          { id := 1, lowWatermark := 4, committed := [4, 6] } = false ∧
        ∀ r, 4 ≤ r → r < cors.nextReqNo → clientReqToBucket 1 r nsW.config = 1 →
          isCommitted r { id := 1, lowWatermark := 4, committed := [4, 6] } = true)) := by
  refine ⟨⟨by decide, by decide⟩,
    ⟨_, _, rfl, rfl, by decide, ?_⟩⟩
  exact newOutstandingReqs_nextReqNo [] nsW 1
    { id := 1, lowWatermark := 4, committed := [4, 6] } _ _
    (by decide) (by decide) (by decide) rfl rfl
